import Mathlib

set_option maxRecDepth 8000

/-!
Shallow embedding of
`python/packages/autogen-studio/frontend/src/components/views/teambuilder/builder/store.tsx`:
the zustand state store of the visual team-builder editor.

Modelling conventions:

* JavaScript node objects are mutable and shared by reference between the
  current `nodes` array and the history snapshots (every snapshot is built
  with a shallow copy `[...state.nodes]`).  To capture this the model keeps a
  heap (`Store.heap`) of node objects; `Store.nodes` and the history
  snapshots hold references (indices) into that heap.  An in-place mutation
  of a node object (`targetNode.data.component.config.… = …`) is a `heap.set`,
  visible through every alias; an immutable replacement (`state.nodes.map`
  with an object spread) is an allocation of a fresh heap cell.
* Edge objects are never mutated by the store, so edges are plain values.
  The `sourceHandle`/`targetHandle` strings and node positions/dimensions are
  never read by any store logic and are not modelled.
* `nanoid` ids are opaque strings in the source; they are modelled as natural
  numbers drawn from the counter `Store.nextId`.
* Component configs (`config.…`) are flattened into the component value; a
  JS `undefined` list is identified with the empty list (the source only
  replaces `undefined` lists by `[]` before use).  The `workbench` field
  keeps its three JS shapes: `undefined`, a single object, or an array.
* A `set` callback that throws (reading `history[i]` out of bounds) leaves
  the zustand state unchanged; the model returns the state unchanged there.
-/

mutual
/-- Component values of the structured JSON configuration
(`Component<ComponentConfig>` of the datamodel): provider, component type,
version fields, label/description, and the flattened config fields used by
the store (`name`, `participants`, `model_client`, `termination_condition`,
`workbench`, `tools`). -/
inductive Component where
  | mk (provider : String) (ctype : String)
       (version : Option Nat) (component_version : Option Nat)
       (clabel : Option String) (description : Option String)
       (cname : Option String)
       (participants : List Component)
       (model_client : Option Component)
       (termination_condition : Option Component)
       (workbench : Wb)
       (tools : List Component)

/-- The JS `workbench` field of an agent config: `undefined`, a single
workbench component, or an array of workbench components. -/
inductive Wb where
  | undef
  | single (c : Component)
  | arr (l : List Component)
end

instance : Inhabited Component :=
  ⟨Component.mk "" "" none none none none none [] none none Wb.undef []⟩

instance : Inhabited Wb := ⟨Wb.undef⟩

def Component.provider : Component → String
  | .mk p _ _ _ _ _ _ _ _ _ _ _ => p

def Component.ctype : Component → String
  | .mk _ t _ _ _ _ _ _ _ _ _ _ => t

def Component.version : Component → Option Nat
  | .mk _ _ v _ _ _ _ _ _ _ _ _ => v

def Component.component_version : Component → Option Nat
  | .mk _ _ _ cv _ _ _ _ _ _ _ _ => cv

def Component.clabel : Component → Option String
  | .mk _ _ _ _ l _ _ _ _ _ _ _ => l

def Component.description : Component → Option String
  | .mk _ _ _ _ _ d _ _ _ _ _ _ => d

def Component.cname : Component → Option String
  | .mk _ _ _ _ _ _ n _ _ _ _ _ => n

def Component.participants : Component → List Component
  | .mk _ _ _ _ _ _ _ ps _ _ _ _ => ps

def Component.model_client : Component → Option Component
  | .mk _ _ _ _ _ _ _ _ m _ _ _ => m

def Component.termination_condition : Component → Option Component
  | .mk _ _ _ _ _ _ _ _ _ tc _ _ => tc

def Component.workbench : Component → Wb
  | .mk _ _ _ _ _ _ _ _ _ _ w _ => w

def Component.tools : Component → List Component
  | .mk _ _ _ _ _ _ _ _ _ _ _ ts => ts

/-- `config.participants = v` on a component value. -/
def Component.withParticipants : Component → List Component → Component
  | .mk p t v cv l d n _ m tc w ts, ps => .mk p t v cv l d n ps m tc w ts

/-- `config.model_client = v` on a component value. -/
def Component.withModelClient : Component → Option Component → Component
  | .mk p t v cv l d n ps _ tc w ts, m => .mk p t v cv l d n ps m tc w ts

/-- `config.termination_condition = v` on a component value. -/
def Component.withTermination : Component → Option Component → Component
  | .mk p t v cv l d n ps m _ w ts, tc => .mk p t v cv l d n ps m tc w ts

/-- `config.workbench = v` on a component value. -/
def Component.withWorkbench : Component → Wb → Component
  | .mk p t v cv l d n ps m tc _ ts, w => .mk p t v cv l d n ps m tc w ts

/-- `config.name = v` on a component value. -/
def Component.withName : Component → Option String → Component
  | .mk p t v cv l d _ ps m tc w ts, n => .mk p t v cv l d n ps m tc w ts

/-- `config.tools = v` on a component value. -/
def Component.withTools : Component → List Component → Component
  | .mk p t v cv l d n ps m tc w _, ts => .mk p t v cv l d n ps m tc w ts

mutual
/-- Structural (deep) equality of component values: the model of lodash
`isEqual` on components. -/
def ceq : Component → Component → Bool
  | .mk p1 t1 v1 cv1 l1 d1 n1 ps1 m1 tc1 w1 ts1,
    .mk p2 t2 v2 cv2 l2 d2 n2 ps2 m2 tc2 w2 ts2 =>
    p1 == p2 && t1 == t2 && v1 == v2 && cv1 == cv2 && l1 == l2 && d1 == d2 &&
    n1 == n2 && ceqList ps1 ps2 && ceqOpt m1 m2 && ceqOpt tc1 tc2 &&
    ceqWb w1 w2 && ceqList ts1 ts2

def ceqList : List Component → List Component → Bool
  | [], [] => true
  | a :: as, b :: bs => ceq a b && ceqList as bs
  | _, _ => false

def ceqOpt : Option Component → Option Component → Bool
  | none, none => true
  | some a, some b => ceq a b
  | _, _ => false

def ceqWb : Wb → Wb → Bool
  | .undef, .undef => true
  | .single a, .single b => ceq a b
  | .arr a, .arr b => ceqList a b
  | _, _ => false
end

/-- Modelled from the spec (guards of `types/guards`, not under `src/`): a
team component is one whose `component_type` is `"team"`. -/
def isTeamComponent (c : Component) : Bool := c.ctype == "team"

/-- Modelled from the spec (guards of `types/guards`, not under `src/`): an
agent component is one whose `component_type` is `"agent"`. -/
def isAgentComponent (c : Component) : Bool := c.ctype == "agent"

/-- Modelled from the spec (guards of `types/guards`, not under `src/`): a
tool component is one whose `component_type` is `"tool"`. -/
def isToolComponent (c : Component) : Bool := c.ctype == "tool"

/-- Modelled from the spec (guards of `types/guards`, not under `src/`): a
workbench component is one whose `component_type` is `"workbench"`. -/
def isWorkbenchComponent (c : Component) : Bool := c.ctype == "workbench"

/-- Modelled from the spec (guards of `types/guards`, not under `src/`): a
termination-condition component is one whose `component_type` is
`"termination"`. -/
def isTerminationComponent (c : Component) : Bool := c.ctype == "termination"

/-- Modelled from the spec (guards of `types/guards`, not under `src/`): a
model component is one whose `component_type` is `"model"`. -/
def isModelComponent (c : Component) : Bool := c.ctype == "model"

/-- Modelled from the spec (guards of `types/guards`, not under `src/`): a
selector team is a team component with the SelectorGroupChat provider. -/
def isSelectorTeam (c : Component) : Bool :=
  isTeamComponent c && c.provider == "autogen_agentchat.teams.SelectorGroupChat"

/-- Modelled from the spec (guards of `types/guards`, not under `src/`): an
assistant agent is an agent component with the AssistantAgent provider. -/
def isAssistantAgent (c : Component) : Bool :=
  isAgentComponent c && c.provider == "autogen_agentchat.agents.AssistantAgent"

/-- Modelled from the spec (guards of `types/guards`, not under `src/`): a
web-surfer agent is an agent component with the MultimodalWebSurfer
provider. -/
def isWebSurferAgent (c : Component) : Bool :=
  isAgentComponent c && c.provider == "autogen_ext.agents.web_surfer.MultimodalWebSurfer"

/-- Modelled from the spec (guards of `types/guards`, not under `src/`): a
static workbench is a component with the `autogen_core.tools.StaticWorkbench`
provider (the provider the store itself uses when it creates one). -/
def isStaticWorkbench (c : Component) : Bool :=
  c.provider == "autogen_core.tools.StaticWorkbench"

/-- JS `a || b` on an optional string (`undefined` and `""` are falsy). -/
def strOr (o : Option String) (d : String) : String :=
  match o with
  | some s => if s == "" then d else s
  | none => d

/-- Largest length of a string in the list. -/
def maxStrLen (l : List String) : Nat :=
  l.foldr (fun s m => max s.length m) 0

/-- Modelled from the spec (`getUniqueName` of `./utils`, not under `src/`):
returns `base` itself when it does not occur in `existing`, and otherwise a
renaming of `base` that does not occur in `existing`.  The disambiguation
scheme is not described by the spec; the model appends enough underscore
characters to make the result longer than every string in `existing`. -/
def getUniqueName (base : String) (existing : List String) : String :=
  if base ∈ existing then
    base ++ String.mk (List.replicate (maxStrLen existing + 1) '_')
  else base

/-- Node ids (`nanoid` values) are opaque; modelled as naturals from the
store's counter. -/
abbrev Ident := Nat

/-- A node object of the graph (`CustomNode`): its id, node type, and the
`data` fields (`label`, `type`, `component`).  Positions and measured
dimensions are never read by the store logic and are not modelled. -/
structure NodeObj where
  nid : Ident
  ntype : String
  dlabel : String
  dtype : String
  component : Component

instance : Inhabited NodeObj := ⟨⟨0, "", "", "", default⟩⟩

/-- An edge of the graph (`CustomEdge`); edge objects are never mutated by
the store, so they are plain values.  Handles are not modelled. -/
structure Edge where
  eid : Ident
  source : Ident
  target : Ident
  etype : String
deriving DecidableEq, Repr

/-- One history entry: a snapshot `{ nodes, edges }`, where `nodes` is the
list of heap references shallow-copied from the state. -/
abbrev Snap := List Ident × List Edge

def MAX_HISTORY : Nat := 50

/-- The store state (`TeamBuilderState`), plus the heap of node objects and
the id counter. -/
structure Store where
  heap : List NodeObj
  nodes : List Ident
  edges : List Edge
  selectedNodeId : Option Ident
  history : List Snap
  currentHistoryIndex : Int
  originalComponent : Option Component
  teamId : Option String
  nextId : Nat

/-- The initial store state. -/
def initialStore : Store :=
  { heap := [], nodes := [], edges := [], selectedNodeId := none,
    history := [], currentHistoryIndex := -1, originalComponent := none,
    teamId := none, nextId := 0 }

/-- Dereference a heap cell (all references held by reachable states are
in bounds, so the default is never produced by the modelled operations). -/
def objAt (s : Store) (r : Ident) : NodeObj := s.heap.getD r default

/-- `state.nodes.find(n => n.id === id)`, returning the heap reference. -/
def findNodeRef (s : Store) (id : Ident) : Option Ident :=
  s.nodes.find? (fun r => (objAt s r).nid == id)

/-- The observable node objects of a state, in order. -/
def viewNodes (s : Store) : List NodeObj := s.nodes.map (objAt s)

/-- The observable node ids of a state, in order. -/
def viewNodeIds (s : Store) : List Ident := s.nodes.map (fun r => (objAt s r).nid)

/-- JS `list.slice(0, e)` (a negative end counts from the end of the list). -/
def slice0 (l : List α) (e : Int) : List α :=
  if 0 ≤ e then l.take e.toNat else l.take (l.length - min l.length (-e).toNat)

/-- JS `list.slice(-n)` for `n > 0`: the last `n` elements. -/
def sliceLast (l : List α) (n : Nat) : List α := l.drop (l.length - n)

/-- The history update every snapshot-recording operation performs:
`[...state.history.slice(0, state.currentHistoryIndex + 1), snap].slice(-MAX_HISTORY)`. -/
def pushHistory (h : List Snap) (idx : Int) (snap : Snap) : List Snap :=
  sliceLast (slice0 h (idx + 1) ++ [snap]) MAX_HISTORY

/-- Record a snapshot of the current nodes/edges and advance the index:
the common tail of every mutating operation. -/
def record (s : Store) : Store :=
  { s with
    history := pushHistory s.history s.currentHistoryIndex (s.nodes, s.edges),
    currentHistoryIndex := s.currentHistoryIndex + 1 }

/-- `setSelectedNode`. -/
def setSelectedNode (s : Store) (nodeId : Option Ident) : Store :=
  { s with selectedNodeId := nodeId }

/-- `setNodeUserPositioned` only writes to the external layout storage
(localStorage); the store state is unchanged. -/
def setNodeUserPositioned (s : Store) : Store := s

/-- `addToHistory`. -/
def addToHistory (s : Store) : Store := record s

/-- `resetHistory`. -/
def resetHistory (s : Store) : Store :=
  { s with history := [(s.nodes, s.edges)], currentHistoryIndex := 0 }

/-- `undo`.  When `0 < currentHistoryIndex` but `history[currentHistoryIndex - 1]`
does not exist (a state the index bug of the history truncation can reach), the JS
code throws a TypeError inside the `set` callback, which leaves the zustand
state unchanged; the model returns the state unchanged there. -/
def undo (s : Store) : Store :=
  if s.currentHistoryIndex ≤ 0 then s
  else
    match s.history.get? (s.currentHistoryIndex - 1).toNat with
    | none => s
    | some prev =>
      { s with nodes := prev.1, edges := prev.2,
               currentHistoryIndex := s.currentHistoryIndex - 1 }

/-- `redo`.  As for `undo`, an out-of-bounds read (only possible when
`currentHistoryIndex ≤ -2`, which no reachable state attains) is modelled by
returning the state unchanged. -/
def redo (s : Store) : Store :=
  if (s.history.length : Int) - 1 ≤ s.currentHistoryIndex then s
  else
    match s.history.get? (s.currentHistoryIndex + 1).toNat with
    | none => s
    | some nxt =>
      { s with nodes := nxt.1, edges := nxt.2,
               currentHistoryIndex := s.currentHistoryIndex + 1 }

/-- `addEdge`. -/
def addEdge (s : Store) (e : Edge) : Store :=
  record { s with edges := s.edges ++ [e] }

/-- `removeEdge`. -/
def removeEdge (s : Store) (edgeId : Ident) : Store :=
  record { s with edges := s.edges.filter (fun e => e.eid ≠ edgeId) }

/-- `normalizeWorkbenches`: `undefined` becomes `[]`, a single workbench
becomes a one-element array, an array is returned as is. -/
def normalizeWorkbenches (w : Wb) : List Component :=
  match w with
  | .undef => []
  | .single c => [c]
  | .arr l => l

/-- The `StaticWorkbench` literal `addNode` creates when a tool is dropped on
an assistant agent that has no static workbench yet. -/
def newStaticWorkbench : Component :=
  .mk "autogen_core.tools.StaticWorkbench" "workbench" (some 1) (some 1)
    (some "Static Workbench") (some "A static workbench for managing custom tools")
    none [] none none .undef []

/-- `clonedComponent.config.name || clonedComponent.label || "tool"`. -/
def toolDisplayName (t : Component) : String :=
  strOr t.cname (strOr t.clabel "tool")

/-- Append `tool` to the tools of workbench `wb`, first renaming it with
`getUniqueName` against the display names of the tools already present. -/
def addToolTo (wb : Component) (tool : Component) : Component :=
  let names := wb.tools.map toolDisplayName
  let nm := getUniqueName (toolDisplayName tool) names
  wb.withTools (wb.tools ++ [tool.withName (some nm)])

/-- `Array.prototype.findIndex` (`-1` becomes `none`): the first index whose
element satisfies the predicate. -/
def findIdxFrom (p : Component → Bool) : List Component → Option Nat
  | [] => none
  | x :: xs => if p x then some 0 else (findIdxFrom p xs).map (fun i => i + 1)

/-- The net effect of the tool-drop branch of `addNode` on the agent's
`workbench` field: find the first static workbench (creating the array and a
fresh `StaticWorkbench` when there is none, in which case the field is
reassigned to an array) and push the renamed tool into its tools.  When an
existing static workbench is found the mutation is in place, so a `single`
field keeps its single shape. -/
def toolDropWb (w : Wb) (tool : Component) : Wb :=
  let wbs := normalizeWorkbenches w
  match findIdxFrom (fun wb => isStaticWorkbench wb) wbs with
  | none => Wb.arr (wbs ++ [addToolTo newStaticWorkbench tool])
  | some i =>
    match w with
    | .single c => Wb.single (addToolTo c tool)
    | .arr l => Wb.arr (l.set i (addToolTo (l.getD i default) tool))
    | .undef => Wb.undef

/-- The node-creation section of `addNode` (new team / agent / workbench
nodes) followed by the history-recording tail.  `getLayoutedElements` and
`updateNodeDimensions` (`./utils`, not under `src/`) only compute positions
and measured dimensions, which are not modelled, so both history-recording
paths behave identically on the modelled fields; the unused flag records
which path the source takes. -/
def addNodeCreate (s : Store) (cloned : Component) (_targetGiven : Bool) : Store :=
  if isTeamComponent cloned then
    let newObj : NodeObj := { nid := s.nextId, ntype := cloned.ctype,
                              dlabel := strOr cloned.clabel "Team",
                              dtype := cloned.ctype, component := cloned }
    record { s with heap := s.heap ++ [newObj], nodes := s.nodes ++ [s.heap.length],
                    nextId := s.nextId + 1 }
  else if isAgentComponent cloned then
    match s.nodes.find? (fun r => isTeamComponent (objAt s r).component) with
    | none => record s
    | some tr =>
      let teamNode := objAt s tr
      let cloned2 :=
        if isAssistantAgent cloned && isTeamComponent teamNode.component then
          cloned.withName (some (getUniqueName (strOr cloned.cname "")
            (teamNode.component.participants.map (fun p => strOr p.cname ""))))
        else cloned
      let newObj : NodeObj := { nid := s.nextId, ntype := cloned2.ctype,
                                dlabel := strOr cloned2.clabel (strOr cloned2.cname ""),
                                dtype := cloned2.ctype, component := cloned2 }
      let newEdge : Edge := { eid := s.nextId + 1, source := teamNode.nid,
                              target := s.nextId, etype := "agent-connection" }
      -- `teamNode.data.component.config.participants.push(...)` mutates the
      -- team node object in place (shared with every snapshot holding it).
      let teamObj2 := { teamNode with component :=
        teamNode.component.withParticipants (teamNode.component.participants ++ [cloned2]) }
      record { s with
        heap := (s.heap ++ [newObj]).set tr teamObj2,
        nodes := s.nodes ++ [s.heap.length],
        edges := s.edges ++ [newEdge],
        nextId := s.nextId + 2 }
  else if isWorkbenchComponent cloned then
    let newObj : NodeObj := { nid := s.nextId, ntype := cloned.ctype,
                              dlabel := strOr cloned.clabel "Workbench",
                              dtype := cloned.ctype, component := cloned }
    record { s with heap := s.heap ++ [newObj], nodes := s.nodes ++ [s.heap.length],
                    nextId := s.nextId + 1 }
  else
    record s

/-- `addNode`.  `targetNodeId = none` models the falsy empty string.  The
incoming component is deep-cloned by the source (`JSON.parse(JSON.stringify)`),
which is value semantics here.  The model / tool / workbench drop branches
mutate the target node object in place (`heap.set`); the termination branch
replaces it immutably (a fresh heap cell). -/
def addNode (s : Store) (component : Component) (targetNodeId : Option Ident) : Store :=
  let cloned := component
  match targetNodeId with
  | none => addNodeCreate s cloned false
  | some tid =>
    match findNodeRef s tid with
    | none => s
    | some r =>
      let tgt := objAt s r
      if isModelComponent cloned then
        if isTeamComponent tgt.component && isSelectorTeam tgt.component then
          let c2 := tgt.component.withModelClient (some cloned)
          record { s with heap := s.heap.set r { tgt with component := c2 } }
        else if isAgentComponent tgt.component &&
                (isAssistantAgent tgt.component || isWebSurferAgent tgt.component) then
          let c2 := tgt.component.withModelClient (some cloned)
          record { s with heap := s.heap.set r { tgt with component := c2 } }
        else addNodeCreate s cloned true
      else if isToolComponent cloned then
        if isAgentComponent tgt.component && isAssistantAgent tgt.component then
          let c2 := tgt.component.withWorkbench (toolDropWb tgt.component.workbench cloned)
          record { s with heap := s.heap.set r { tgt with component := c2 } }
        else addNodeCreate s cloned true
      else if isTerminationComponent cloned then
        if isTeamComponent tgt.component then
          let c2 := tgt.component.withTermination (some cloned)
          let newObj := { tgt with component := c2 }
          let ns := s.nodes.map (fun x => if (objAt s x).nid == tid then s.heap.length else x)
          record { s with heap := s.heap ++ [newObj], nodes := ns }
        else addNodeCreate s cloned true
      else if isWorkbenchComponent cloned then
        if isAgentComponent tgt.component && isAssistantAgent tgt.component then
          let c2 := tgt.component.withWorkbench
            (Wb.arr (normalizeWorkbenches tgt.component.workbench ++ [cloned]))
          record { s with heap := s.heap.set r { tgt with component := c2 } }
        else addNodeCreate s cloned true
      else addNodeCreate s cloned true

/-- The `Partial<NodeData>` argument of `updateNode`. -/
structure UpdateArg where
  ulabel : Option String
  udtype : Option String
  ucomponent : Option Component

/-- The node rebuild of `updateNode`: nodes the map changes become fresh
objects, unchanged nodes keep their reference.  The `participant === old`
identity test of the source is modelled by structural equality `ceq`; when
`updates.component` is absent the source would insert `undefined` into the
participants (the model keeps the participant instead, a corner no claim
exercises). -/
def updateNodesGo (s : Store) (nodeId : Ident) (upd : UpdateArg)
    (oldTarget : Option Component) : List Ident → List NodeObj → (List NodeObj × List Ident)
  | [], heapAcc => (heapAcc, [])
  | x :: xs, heapAcc =>
    let node := objAt s x
    if node.nid == nodeId then
      let ob : NodeObj := { node with
        dlabel := upd.ulabel.getD node.dlabel,
        dtype := upd.udtype.getD node.dtype,
        component := upd.ucomponent.getD node.component }
      let res := updateNodesGo s nodeId upd oldTarget xs (heapAcc ++ [ob])
      (res.1, heapAcc.length :: res.2)
    else if isTeamComponent node.component &&
            s.edges.any (fun e => e.etype == "agent-connection" &&
              e.target == nodeId && e.source == node.nid) then
      let ps2 := node.component.participants.map (fun p =>
        match oldTarget with
        | some oc =>
          if ceq p oc then (match upd.ucomponent with | some c => c | none => p) else p
        | none => p)
      let ob : NodeObj := { node with component := node.component.withParticipants ps2 }
      let res := updateNodesGo s nodeId upd oldTarget xs (heapAcc ++ [ob])
      (res.1, heapAcc.length :: res.2)
    else
      let res := updateNodesGo s nodeId upd oldTarget xs heapAcc
      (res.1, x :: res.2)

/-- `updateNode` (it never touches `edges`). -/
def updateNode (s : Store) (nodeId : Ident) (upd : UpdateArg) : Store :=
  let oldTarget := (findNodeRef s nodeId).map (fun r => (objAt s r).component)
  let res := updateNodesGo s nodeId upd oldTarget s.nodes s.heap
  record { s with heap := res.1, nodes := res.2 }

/-- `Map.set` of the `updatedNodes` map of `removeNode` (replace or append). -/
def mapSet (m : List (Ident × NodeObj)) (k : Ident) (v : NodeObj) : List (Ident × NodeObj) :=
  if m.any (fun kv => kv.1 == k) then m.map (fun kv => if kv.1 == k then (k, v) else kv)
  else m ++ [(k, v)]

/-- `Map.get` of the `updatedNodes` map of `removeNode`. -/
def mapGet (m : List (Ident × NodeObj)) (k : Ident) : Option NodeObj :=
  (m.find? (fun kv => kv.1 == k)).map (fun kv => kv.2)

mutual
/-- `collectNodesToRemove` of `removeNode`.  The source recursion has no
visited check and diverges on cyclic `agent-connection` edges; the model
carries fuel (exhaustion returns the accumulator, which no claim's
hypotheses reach). -/
def collectRemove (s : Store) : Nat → Ident → (List Ident × List (Ident × NodeObj)) →
    (List Ident × List (Ident × NodeObj))
  | 0, _, acc => acc
  | fuel + 1, id, acc =>
    match findNodeRef s id with
    | none => acc
    | some r =>
      let node := objAt s r
      let acc1 := (acc.1 ++ [id], acc.2)
      let connected := s.edges.filter (fun e => e.source == id || e.target == id)
      if isTeamComponent node.component then
        collectRemoveMany s fuel
          ((connected.filter (fun e => e.etype == "agent-connection")).map (fun e => e.target)) acc1
      else if isAgentComponent node.component then
        match connected.find? (fun e => e.etype == "agent-connection") with
        | none => acc1
        | some teamEdge =>
          match findNodeRef s teamEdge.source with
          | none => acc1
          | some tr =>
            let teamNode := objAt s tr
            if isTeamComponent teamNode.component then
              let ps2 := teamNode.component.participants.filter
                (fun p => !(ceq p node.component))
              let c2 := teamNode.component.withParticipants ps2
              (acc1.1, mapSet acc1.2 teamNode.nid { teamNode with component := c2 })
            else acc1
      else acc1
termination_by fuel _ _ => (fuel, 0)

/-- The `forEach` over the agent-connection targets of a team in
`collectNodesToRemove`. -/
def collectRemoveMany (s : Store) : Nat → List Ident → (List Ident × List (Ident × NodeObj)) →
    (List Ident × List (Ident × NodeObj))
  | _, [], acc => acc
  | fuel, t :: ts, acc => collectRemoveMany s fuel ts (collectRemove s fuel t acc)
termination_by fuel ts _ => (fuel, ts.length + 1)
end

/-- The node rebuild of `removeNode`: kept nodes that the `updatedNodes` map
replaces become fresh objects (the source builds them with object spreads),
others keep their reference. -/
def rebuildNodes (s : Store) (upd : List (Ident × NodeObj)) :
    List Ident → List NodeObj → (List NodeObj × List Ident)
  | [], heapAcc => (heapAcc, [])
  | x :: xs, heapAcc =>
    match mapGet upd (objAt s x).nid with
    | some v =>
      let res := rebuildNodes s upd xs (heapAcc ++ [v])
      (res.1, heapAcc.length :: res.2)
    | none =>
      let res := rebuildNodes s upd xs heapAcc
      (res.1, x :: res.2)

/-- `removeNode`. -/
def removeNode (s : Store) (nodeId : Ident) : Store :=
  let res := collectRemove s (s.nodes.length + 1) nodeId ([], [])
  let rem := res.1
  let kept := s.nodes.filter (fun x => !(rem.contains (objAt s x).nid))
  let rb := rebuildNodes s res.2 kept s.heap
  let es := s.edges.filter (fun e => !(rem.contains e.source) && !(rem.contains e.target))
  record { s with heap := rb.1, nodes := rb.2, edges := es }

/-- The participant list `buildTeamComponent` derives from the graph: the
agent components of the targets of the team's `agent-connection` edges, in
edge order, skipping targets that are missing or not agents (the source's
`map` to `null` followed by a non-null `filter`). -/
def edgeDerivedParticipants (s : Store) (teamNid : Ident) : List Component :=
  (s.edges.filter (fun e => e.source == teamNid && e.etype == "agent-connection")).filterMap
    (fun e => match findNodeRef s e.target with
      | none => none
      | some r =>
        if isAgentComponent (objAt s r).component then some (objAt s r).component else none)

/-- `buildTeamComponent`.  `const component = { ...teamNode.data.component }`
is a shallow copy: `component.config` is the node's own config object, so the
assignment `component.config.participants = …` mutates the node in place;
the model returns the mutated store alongside the component. -/
def buildTeamComponent (s : Store) (r : Ident) : Option Component × Store :=
  let teamNode := objAt s r
  if isTeamComponent teamNode.component then
    let ps := edgeDerivedParticipants s teamNode.nid
    let comp := teamNode.component.withParticipants ps
    (some comp, { s with heap := s.heap.set r { teamNode with component := comp } })
  else (none, s)

/-- `syncToJson`: the first node whose component type is `"team"` (the
source filters and takes index 0; `find?` is that first element). -/
def syncToJson (s : Store) : Option Component × Store :=
  match s.nodes.find? (fun r => (objAt s r).component.ctype == "team") with
  | none => (none, s)
  | some r => buildTeamComponent s r

/-- `layoutNodes`: `getLayoutedElements` only computes positions (not
modelled), after which a snapshot is recorded. -/
def layoutNodes (s : Store) : Store := record s

/-- Modelled from the spec (`convertTeamConfigToGraph` of `./utils`, not
under `src/`): the participant conversion — one agent node per participant,
each connected to the team node by an `agent-connection` edge, in participant
order.  Ids are drawn from the counter; the returned `Nat` is the next free
counter value. -/
def convParts (teamNid : Ident) (ps : List Component) (n : Nat) :
    List NodeObj × List Edge × Nat :=
  match ps with
  | [] => ([], [], n)
  | p :: rest =>
    let nodeObj : NodeObj := ⟨n, p.ctype, strOr p.clabel (strOr p.cname ""), p.ctype, p⟩
    let e : Edge := ⟨n + 1, teamNid, n, "agent-connection"⟩
    let r := convParts teamNid rest (n + 2)
    (nodeObj :: r.1, e :: r.2.1, r.2.2)

/-- Modelled from the spec (`convertTeamConfigToGraph` of `./utils`, not
under `src/`): a graph representation of a team configuration — a team node
holding the team component unchanged, one agent node per participant holding
the participant component unchanged, and `agent-connection` edges from the
team to each agent, in participant order. -/
def convertTeamConfigToGraph (config : Component) (n : Nat) :
    List NodeObj × List Edge × Nat :=
  let teamObj : NodeObj := ⟨n, config.ctype, strOr config.clabel "Team", config.ctype, config⟩
  let r := convParts n config.participants (n + 1)
  (teamObj :: r.1, r.2.1, r.2.2)

/-- Deep equality of node-object lists: the model of the lodash `isEqual`
check of `loadFromJson` on the modelled fields. -/
def nodesEqB : List NodeObj → List NodeObj → Bool
  | [], [] => true
  | a :: as, b :: bs =>
    a.nid == b.nid && a.ntype == b.ntype && a.dlabel == b.dlabel &&
    a.dtype == b.dtype && ceq a.component b.component && nodesEqB as bs
  | _, _ => false

/-- `loadFromJson`.  On an initial load everything is reset and the history
becomes the single snapshot.  Otherwise the state is only replaced (with a
recorded snapshot) when the converted graph differs from the current one. -/
def loadFromJson (s : Store) (config : Component) (isInitialLoad : Bool)
    (teamId : Option String) : Store :=
  let conv := convertTeamConfigToGraph config s.nextId
  let objs := conv.1
  let es := conv.2.1
  let n2 := conv.2.2
  let refs := (List.range objs.length).map (fun i => s.heap.length + i)
  if isInitialLoad then
    { heap := s.heap ++ objs, nodes := refs, edges := es,
      selectedNodeId := none, history := [(refs, es)], currentHistoryIndex := 0,
      originalComponent := some config, teamId := teamId, nextId := n2 }
  else
    if nodesEqB objs (viewNodes s) && es == s.edges then s
    else
      let tid2 := match teamId with | some t => some t | none => s.teamId
      let s2 := { s with heap := s.heap ++ objs, nodes := refs, edges := es,
                         teamId := tid2, nextId := n2 }
      record s2

/-- The states reachable from the initial store state by the public store
operations. -/
inductive Reachable : Store → Prop where
  | init : Reachable initialStore
  | addNode {s} (c : Component) (t : Option Ident) :
      Reachable s → Reachable (addNode s c t)
  | updateNode {s} (nid : Ident) (u : UpdateArg) :
      Reachable s → Reachable (updateNode s nid u)
  | removeNode {s} (nid : Ident) : Reachable s → Reachable (removeNode s nid)
  | addEdge {s} (e : Edge) : Reachable s → Reachable (addEdge s e)
  | removeEdge {s} (eid : Ident) : Reachable s → Reachable (removeEdge s eid)
  | setSelectedNode {s} (nid : Option Ident) :
      Reachable s → Reachable (setSelectedNode s nid)
  | setNodeUserPositioned {s} : Reachable s → Reachable (setNodeUserPositioned s)
  | undo {s} : Reachable s → Reachable (undo s)
  | redo {s} : Reachable s → Reachable (redo s)
  | syncToJson {s} : Reachable s → Reachable (syncToJson s).2
  | loadFromJson {s} (c : Component) (b : Bool) (t : Option String) :
      Reachable s → Reachable (loadFromJson s c b t)
  | layoutNodes {s} : Reachable s → Reachable (layoutNodes s)
  | resetHistory {s} : Reachable s → Reachable (resetHistory s)
  | addToHistory {s} : Reachable s → Reachable (addToHistory s)

/-- The set of node ids the cascade of `removeNode t` removes, as the claim
describes it: `t` itself, plus the targets of the team's outgoing
`agent-connection` edges that resolve to an existing node. -/
def removedByCascade (s : Store) (tid x : Ident) : Bool :=
  x == tid ||
    s.edges.any (fun e => e.etype == "agent-connection" && e.source == tid &&
      e.target == x && (findNodeRef s e.target).isSome)

/-- The participant-mirroring invariant: every team node's participants list
equals the agent components of the nodes targeted by its outgoing
`agent-connection` edges, in edge order. -/
def ParticipantsMirror (s : Store) : Prop :=
  ∀ r ∈ s.nodes, isTeamComponent (objAt s r).component = true →
    (objAt s r).component.participants = edgeDerivedParticipants s (objAt s r).nid

/-- Operation `s → s2` recorded exactly one snapshot: the history becomes the
redo-truncated history plus a snapshot of the resulting nodes and edges, kept
to the most recent `MAX_HISTORY` entries, and the index advances by one. -/
def RecordsSnapshot (s s2 : Store) : Prop :=
  s2.history = pushHistory s.history s.currentHistoryIndex (s2.nodes, s2.edges) ∧
  s2.currentHistoryIndex = s.currentHistoryIndex + 1

/-- Fixture: an assistant-agent component. -/
def exAgent : Component :=
  .mk "autogen_agentchat.agents.AssistantAgent" "agent" (some 1) (some 1)
    (some "A1") none (some "agent1") [] none none .undef []

/-- Fixture: a selector-team component with no participants. -/
def exTeamEmpty : Component :=
  .mk "autogen_agentchat.teams.SelectorGroupChat" "team" (some 1) (some 1)
    (some "T") none none [] none none .undef []

/-- Fixture: a selector-team component with one agent participant. -/
def exTeam : Component :=
  .mk "autogen_agentchat.teams.SelectorGroupChat" "team" (some 1) (some 1)
    (some "T") none none [exAgent] none none .undef []

/-- Fixture: a model component. -/
def exModel : Component :=
  .mk "prov.model" "model" (some 1) (some 1) (some "M") none (some "gpt")
    [] none none .undef []

/-- Fixture: a tool component. -/
def exTool : Component :=
  .mk "prov.tool" "tool" (some 1) (some 1) (some "Tool") none (some "fetch")
    [] none none .undef []

/-- The store after an initial load of the empty selector team: one team node
(id 0, heap cell 0) and a one-snapshot history. -/
def sLoadEmptyTeam : Store := loadFromJson initialStore exTeamEmpty true none

/-- The store after an initial load of the one-agent team: team node id 0,
agent node id 1, agent-connection edge id 2. -/
def sLoadTeam1 : Store := loadFromJson initialStore exTeam true none

/-- `sLoadTeam1` after adding a duplicate user-supplied agent-connection edge
from the team to the agent. -/
def sDupEdge : Store := addEdge sLoadTeam1 ⟨99, 0, 1, "agent-connection"⟩

/-- `sLoadTeam1` after removing the team-to-agent edge (id 2). -/
def sNoEdge : Store := removeEdge sLoadTeam1 2

/-- A store whose history is at capacity: `resetHistory` followed by 49
`addToHistory` calls gives 50 snapshots with index 49. -/
def sCap49 : Store := addToHistory^[49] (resetHistory initialStore)

/-- The initial store after 51 `addToHistory` calls. -/
def sOver51 : Store := addToHistory^[51] initialStore

/-- The initial store after two `addToHistory` calls: two snapshots, index 1. -/
def sTwoSnaps : Store := addToHistory (addToHistory initialStore)

/-- The claim-level description of what a tool drop does to the agent's
workbench field: when no static workbench exists, the (normalized) list
gains a fresh `StaticWorkbench` holding just the renamed tool; when the
first static workbench sits at index `i`, that workbench's tools gain the
tool, renamed so that its display name avoids the display names already
present. -/
def ToolDropSpec (w : Wb) (tool : Component) : Prop :=
  let wbs := normalizeWorkbenches w
  match findIdxFrom (fun wb => isStaticWorkbench wb) wbs with
  | none =>
      (∀ wb ∈ wbs, isStaticWorkbench wb = false) ∧
      normalizeWorkbenches (toolDropWb w tool) =
        wbs ++ [newStaticWorkbench.withTools
          [tool.withName (some (getUniqueName (toolDisplayName tool) []))]]
  | some i =>
      ∃ wb, wbs[i]? = some wb ∧ isStaticWorkbench wb = true ∧
        normalizeWorkbenches (toolDropWb w tool) =
          wbs.set i (wb.withTools (wb.tools ++
            [tool.withName (some (getUniqueName (toolDisplayName tool)
              (wb.tools.map toolDisplayName)))])) ∧
        getUniqueName (toolDisplayName tool) (wb.tools.map toolDisplayName) ∉
          wb.tools.map toolDisplayName

theorem reachable_addToHistory_iter {s : Store} (h : Reachable s) :
    ∀ n, Reachable (addToHistory^[n] s)
  | 0 => h
  | n + 1 => by
    rw [Function.iterate_succ_apply']
    exact Reachable.addToHistory (reachable_addToHistory_iter h n)

/-- C1: dropping a model component onto an existing selector-team node
records a history snapshot, but calling `undo` immediately afterwards does
not restore the node's component config: the node object was mutated in
place and is shared with the history snapshot, so `model_client` keeps the
dropped model even though nodes, edges and the history index return to their
pre-operation values.  The claim that such an `addNode` is undone is false;
the recorded snapshot shows undoability was intended, so this is a code
bug. -/
theorem c1_model_drop_not_undone :
    (undo (addNode sLoadEmptyTeam exModel (some 0))).nodes = sLoadEmptyTeam.nodes ∧
    (undo (addNode sLoadEmptyTeam exModel (some 0))).edges = sLoadEmptyTeam.edges ∧
    (undo (addNode sLoadEmptyTeam exModel (some 0))).currentHistoryIndex =
      sLoadEmptyTeam.currentHistoryIndex ∧
    (objAt sLoadEmptyTeam 0).component.model_client = none ∧
    (objAt (undo (addNode sLoadEmptyTeam exModel (some 0))) 0).component.model_client =
      some exModel ∧
    viewNodes (undo (addNode sLoadEmptyTeam exModel (some 0))) ≠ viewNodes sLoadEmptyTeam := by
  refine ⟨rfl, rfl, rfl, rfl, rfl, ?_⟩
  intro h
  exact absurd
    (congrArg (fun l => ((l.getD 0 default).component.model_client).isSome) h) (by decide)

/-- C6: after 51 snapshot-recording operations from the initial state the
truncation to `MAX_HISTORY` has dropped the oldest entry without adjusting
the index, so `currentHistoryIndex = 50 = history.length` is no longer a
valid index into the history.  The claimed invariant is the evident intent
of the truncation; the code fails to decrement the index, a bug. -/
theorem c6_truncation_leaves_invalid_index :
    Reachable sOver51 ∧ sOver51.history.length = 50 ∧
    sOver51.currentHistoryIndex = 50 ∧
    ¬(sOver51.currentHistoryIndex < (sOver51.history.length : Int)) :=
  ⟨reachable_addToHistory_iter Reachable.init 51, by decide, by decide, by decide⟩

/-- C5 counterexample: in a reachable state whose history is at capacity
(50 snapshots, index 49), `addToHistory` does not produce the redo-truncated
history plus one appended snapshot — the truncation to `MAX_HISTORY` also
drops the oldest entry, so the resulting history has 50 entries instead of
the claimed 51. -/
theorem c5_capacity_counterexample :
    Reachable sCap49 ∧
    (addToHistory sCap49).history ≠
      slice0 sCap49.history (sCap49.currentHistoryIndex + 1) ++
        [(sCap49.nodes, sCap49.edges)] := by
  refine ⟨reachable_addToHistory_iter (Reachable.resetHistory Reachable.init) 49, ?_⟩
  intro h
  exact absurd (congrArg List.length h) (by decide)

/-- C3 counterexample: from the initial state, load a team with one agent
participant and then `addEdge` a second (user-supplied) agent-connection
edge from the team to the same agent.  `addEdge` does not update the team's
participants, so the participants list (one entry) no longer equals the
edge-derived agent list (two entries): the mirroring invariant is not
maintained by the public operations. -/
theorem c3_mirror_counterexample :
    Reachable sDupEdge ∧ ¬ ParticipantsMirror sDupEdge := by
  refine ⟨Reachable.addEdge _ (Reachable.loadFromJson exTeam true none Reachable.init), ?_⟩
  intro h
  have h0 := h 0 (by decide) rfl
  exact absurd (congrArg List.length h0) (by decide)

/-- C8 counterexample: `syncToJson` does change the store state.  The
shallow copy `{ ...teamNode.data.component }` shares the `config` object
with the team node, so assigning the recomputed participants mutates the
node in place: after loading a one-agent team and removing its edge,
`syncToJson` rewrites the team node's participants from one entry to none. -/
theorem c8_sync_mutates_counterexample :
    Reachable sNoEdge ∧ (syncToJson sNoEdge).2 ≠ sNoEdge := by
  refine ⟨Reachable.removeEdge 2 (Reachable.loadFromJson exTeam true none Reachable.init), ?_⟩
  intro h
  exact absurd
    (congrArg (fun st => ((objAt st 0).component.participants).length) h) (by decide)

/-- C7: `undo` leaves the state unchanged when `currentHistoryIndex ≤ 0` and
otherwise moves nodes and edges to the snapshot at index − 1, decrementing
the index; `redo` leaves the state unchanged when the index is at or past
`history.length − 1` and otherwise moves to the snapshot at index + 1,
incrementing the index (for `undo` the snapshot below the index is assumed
to exist, which only the truncation bug of C6 can violate). -/
theorem c7_undo_redo_semantics (s : Store) :
    (s.currentHistoryIndex ≤ 0 → undo s = s) ∧
    (∀ prev, 0 < s.currentHistoryIndex →
      s.history.get? (s.currentHistoryIndex - 1).toNat = some prev →
      undo s =
        { s with nodes := prev.1, edges := prev.2,
                 currentHistoryIndex := s.currentHistoryIndex - 1 }) ∧
    ((s.history.length : Int) - 1 ≤ s.currentHistoryIndex → redo s = s) ∧
    (-1 ≤ s.currentHistoryIndex → s.currentHistoryIndex < (s.history.length : Int) - 1 →
      ∃ nxt, s.history.get? (s.currentHistoryIndex + 1).toNat = some nxt ∧
        redo s =
          { s with nodes := nxt.1, edges := nxt.2,
                   currentHistoryIndex := s.currentHistoryIndex + 1 }) := by
  refine ⟨?_, ?_, ?_, ?_⟩
  · intro h
    simp [undo, h]
  · intro prev h hg
    have hn : ¬ s.currentHistoryIndex ≤ 0 := by omega
    have e1 : (s.currentHistoryIndex - 1).toNat = s.currentHistoryIndex.toNat - 1 := by omega
    rw [List.get?_eq_getElem?, e1] at hg
    simp [undo, hn, hg]
  · intro h
    simp [redo, h]
  · intro h1 h2
    have hlt : (s.currentHistoryIndex + 1).toNat < s.history.length := by omega
    have hg := List.get?_eq_get hlt
    refine ⟨s.history.get ⟨(s.currentHistoryIndex + 1).toNat, hlt⟩, hg, ?_⟩
    have hn : ¬ ((s.history.length : Int) - 1 ≤ s.currentHistoryIndex) := by omega
    rw [List.get?_eq_getElem?] at hg
    simp [redo, hn, hg]

theorem c7_undo_redo_semantics_witness :
    undo sTwoSnaps = { sTwoSnaps with nodes := [], edges := [], currentHistoryIndex := 0 } :=
  (c7_undo_redo_semantics sTwoSnaps).2.1 ([], []) (by decide) rfl

theorem sliceLast_length_le (l : List α) (n : Nat) : (sliceLast l n).length ≤ n := by
  simp [sliceLast]
  omega

theorem pushHistory_length_le (h : List Snap) (idx : Int) (snap : Snap) :
    (pushHistory h idx snap).length ≤ MAX_HISTORY :=
  sliceLast_length_le _ _

theorem recordsSnapshot_record (s t : Store) (hh : t.history = s.history)
    (hi : t.currentHistoryIndex = s.currentHistoryIndex) :
    RecordsSnapshot s (record t) := by
  constructor
  · simp [record, hh, hi]
  · simp [record, hi]

theorem recordsSnapshot_length_le {s s2 : Store} (h : RecordsSnapshot s s2) :
    s2.history.length ≤ MAX_HISTORY := by
  rw [h.1]
  exact pushHistory_length_le _ _ _

theorem rs_addEdge (s : Store) (e : Edge) : RecordsSnapshot s (addEdge s e) :=
  recordsSnapshot_record s _ rfl rfl

theorem rs_removeEdge (s : Store) (eid : Ident) : RecordsSnapshot s (removeEdge s eid) :=
  recordsSnapshot_record s _ rfl rfl

theorem rs_updateNode (s : Store) (nid : Ident) (u : UpdateArg) :
    RecordsSnapshot s (updateNode s nid u) :=
  recordsSnapshot_record s _ rfl rfl

theorem rs_removeNode (s : Store) (nid : Ident) : RecordsSnapshot s (removeNode s nid) :=
  recordsSnapshot_record s _ rfl rfl

theorem rs_layoutNodes (s : Store) : RecordsSnapshot s (layoutNodes s) :=
  recordsSnapshot_record s _ rfl rfl

theorem rs_addToHistory (s : Store) : RecordsSnapshot s (addToHistory s) :=
  recordsSnapshot_record s _ rfl rfl

theorem rs_addNodeCreate (s : Store) (c : Component) (b : Bool) :
    RecordsSnapshot s (addNodeCreate s c b) := by
  unfold addNodeCreate
  repeat' split
  all_goals exact recordsSnapshot_record _ _ rfl rfl

theorem rs_addNode (s : Store) (c : Component) (t : Option Ident)
    (ht : t = none ∨ ∃ tid r, t = some tid ∧ findNodeRef s tid = some r) :
    RecordsSnapshot s (addNode s c t) := by
  rcases ht with h | ⟨tid, r, rfl, hr⟩
  · subst h
    exact rs_addNodeCreate s c false
  · simp only [addNode]
    split
    · simp_all
    · repeat' split
      all_goals first
        | exact recordsSnapshot_record _ _ rfl rfl
        | exact rs_addNodeCreate _ _ _

theorem undo_history_eq (s : Store) : (undo s).history = s.history := by
  unfold undo
  repeat' split
  all_goals rfl

theorem redo_history_eq (s : Store) : (redo s).history = s.history := by
  unfold redo
  repeat' split
  all_goals rfl

theorem syncToJson_preserves (s : Store) :
    (syncToJson s).2.nodes = s.nodes ∧ (syncToJson s).2.edges = s.edges ∧
    (syncToJson s).2.history = s.history ∧
    (syncToJson s).2.currentHistoryIndex = s.currentHistoryIndex := by
  unfold syncToJson buildTeamComponent
  dsimp only
  repeat' split
  all_goals exact ⟨rfl, rfl, rfl, rfl⟩

theorem reachable_history_le {s : Store} (h : Reachable s) :
    s.history.length ≤ MAX_HISTORY := by
  induction h with
  | init => simp [initialStore, MAX_HISTORY]
  | addNode c t hprev ih =>
    rename_i s'
    by_cases ht : t = none ∨ ∃ tid r, t = some tid ∧ findNodeRef s' tid = some r
    · exact recordsSnapshot_length_le (rs_addNode s' c t ht)
    · -- the remaining case: a target id that does not resolve, where
      -- `addNode` returns the state unchanged
      push_neg at ht
      obtain ⟨h1, h2⟩ := ht
      match t, h1 with
      | some tid, _ =>
        have hnone : findNodeRef s' tid = none := by
          cases hfr : findNodeRef s' tid with
          | none => rfl
          | some r => exact absurd hfr (h2 tid r rfl)
        simp only [addNode]
        rw [hnone]
        exact ih
  | updateNode nid u hprev ih => exact recordsSnapshot_length_le (rs_updateNode _ nid u)
  | removeNode nid hprev ih => exact recordsSnapshot_length_le (rs_removeNode _ nid)
  | addEdge e hprev ih => exact recordsSnapshot_length_le (rs_addEdge _ e)
  | removeEdge eid hprev ih => exact recordsSnapshot_length_le (rs_removeEdge _ eid)
  | setSelectedNode nid hprev ih => exact ih
  | setNodeUserPositioned hprev ih => exact ih
  | undo hprev ih => rename_i s'; rw [undo_history_eq s']; exact ih
  | redo hprev ih => rename_i s'; rw [redo_history_eq s']; exact ih
  | syncToJson hprev ih => rename_i s'; rw [(syncToJson_preserves s').2.2.1]; exact ih
  | loadFromJson c b t hprev ih =>
    rename_i s'
    unfold loadFromJson
    dsimp only
    split
    · simp [MAX_HISTORY]
    · split
      · exact ih
      · exact recordsSnapshot_length_le (recordsSnapshot_record _ _ rfl rfl)
  | layoutNodes hprev ih => exact recordsSnapshot_length_le (rs_layoutNodes _)
  | resetHistory hprev ih => simp [resetHistory, MAX_HISTORY]
  | addToHistory hprev ih => exact recordsSnapshot_length_le (rs_addToHistory _)

/-- C10: in every reachable state the history holds at most `MAX_HISTORY`
(50) snapshots, and both an initial `loadFromJson` and `resetHistory` reset
the history to exactly one snapshot with `currentHistoryIndex = 0`. -/
theorem c10_history_invariant (s : Store) (hs : Reachable s) (s2 : Store)
    (c : Component) (t : Option String) :
    s.history.length ≤ MAX_HISTORY ∧
    (loadFromJson s2 c true t).history =
      [((loadFromJson s2 c true t).nodes, (loadFromJson s2 c true t).edges)] ∧
    (loadFromJson s2 c true t).currentHistoryIndex = 0 ∧
    (resetHistory s2).history = [(s2.nodes, s2.edges)] ∧
    (resetHistory s2).currentHistoryIndex = 0 :=
  ⟨reachable_history_le hs, rfl, rfl, rfl, rfl⟩

theorem c10_history_invariant_witness :
    initialStore.history.length ≤ MAX_HISTORY ∧
    (loadFromJson initialStore exTeam true none).history =
      [((loadFromJson initialStore exTeam true none).nodes,
        (loadFromJson initialStore exTeam true none).edges)] ∧
    (loadFromJson initialStore exTeam true none).currentHistoryIndex = 0 ∧
    (resetHistory initialStore).history = [(initialStore.nodes, initialStore.edges)] ∧
    (resetHistory initialStore).currentHistoryIndex = 0 :=
  c10_history_invariant initialStore Reachable.init initialStore exTeam none

/-- C5 (amended): each of `addNode` (when the target node exists, or when no
target id is given), `updateNode`, `removeNode`, `addEdge`, `removeEdge`,
`layoutNodes` and `addToHistory` replaces the history by the redo-truncated
history plus one snapshot of the resulting nodes and edges, KEPT TO THE MOST
RECENT `MAX_HISTORY` (50) ENTRIES — at capacity the oldest entry is dropped
as well — and increments `currentHistoryIndex` by exactly 1; `undo` and
`redo` record no new history entries. -/
theorem c5_snapshot_recording (s : Store) (e : Edge) (eid nid : Ident)
    (u : UpdateArg) (c : Component) (t : Option Ident)
    (ht : t = none ∨ ∃ tid r, t = some tid ∧ findNodeRef s tid = some r) :
    RecordsSnapshot s (addEdge s e) ∧
    RecordsSnapshot s (removeEdge s eid) ∧
    RecordsSnapshot s (updateNode s nid u) ∧
    RecordsSnapshot s (removeNode s nid) ∧
    RecordsSnapshot s (layoutNodes s) ∧
    RecordsSnapshot s (addToHistory s) ∧
    RecordsSnapshot s (addNode s c t) ∧
    (undo s).history = s.history ∧ (redo s).history = s.history :=
  ⟨rs_addEdge s e, rs_removeEdge s eid, rs_updateNode s nid u, rs_removeNode s nid,
   rs_layoutNodes s, rs_addToHistory s, rs_addNode s c t ht,
   undo_history_eq s, redo_history_eq s⟩

theorem c5_snapshot_recording_witness :
    RecordsSnapshot sLoadTeam1 (addNode sLoadTeam1 exModel (some 0)) :=
  (c5_snapshot_recording sLoadTeam1 ⟨9, 0, 1, "x"⟩ 0 0 ⟨none, none, none⟩ exModel
    (some 0) (Or.inr ⟨0, 0, rfl, rfl⟩)).2.2.2.2.2.2.1

theorem participants_withParticipants (c : Component) (ps : List Component) :
    (c.withParticipants ps).participants = ps := by
  cases c
  rfl

/-- C3 (amended): the participant-mirroring property is not an invariant of
the graph state (`addEdge`/`removeEdge` do not maintain it — see the
counterexample); it is instead guaranteed of the JSON that `syncToJson`
produces, which recomputes the participants from the agent-connection edges:
whenever `syncToJson` returns a team component, its `config.participants` is
exactly the edge-derived agent list of the first team node. -/
theorem c3_sync_output_mirrors (s : Store) (c : Component) (s2 : Store)
    (h : syncToJson s = (some c, s2)) :
    ∃ r, s.nodes.find? (fun x => (objAt s x).component.ctype == "team") = some r ∧
      c.participants = edgeDerivedParticipants s (objAt s r).nid := by
  unfold syncToJson at h
  cases hf : s.nodes.find? (fun x => (objAt s x).component.ctype == "team") with
  | none =>
    rw [hf] at h
    simp at h
  | some r =>
    rw [hf] at h
    unfold buildTeamComponent at h
    dsimp only at h
    split at h
    · have hc := congrArg Prod.fst h
      simp at hc
      refine ⟨r, rfl, ?_⟩
      rw [← hc]
      exact participants_withParticipants _ _
    · simp at h

theorem c3_sync_output_mirrors_witness :
    ∃ r, sLoadTeam1.nodes.find?
        (fun x => (objAt sLoadTeam1 x).component.ctype == "team") = some r ∧
      exTeam.participants = edgeDerivedParticipants sLoadTeam1 (objAt sLoadTeam1 r).nid :=
  c3_sync_output_mirrors sLoadTeam1 exTeam (syncToJson sLoadTeam1).2 rfl

/-- C8 (amended): `syncToJson` returns `null` exactly when no node's
component type is `"team"` (the team guard coincides with that check, so
the guard disjunct is vacuous); otherwise it returns the first team node's
component with the edge-derived participants (in edge order, skipping
missing or non-agent targets).  The store is NOT unchanged: the shallow
component copy shares the node's config, so the first team node's
participants are rewritten in place (`heap.set`); nodes, edges, history and
index are unchanged. -/
theorem c8_sync_spec (s : Store) :
    ((syncToJson s).1 = none ↔
      ∀ r ∈ s.nodes, isTeamComponent (objAt s r).component = false) ∧
    (∀ r, s.nodes.find? (fun x => (objAt s x).component.ctype == "team") = some r →
      (syncToJson s).1 =
        some ((objAt s r).component.withParticipants
          (edgeDerivedParticipants s (objAt s r).nid)) ∧
      (syncToJson s).2.heap =
        s.heap.set r ⟨(objAt s r).nid, (objAt s r).ntype, (objAt s r).dlabel,
          (objAt s r).dtype,
          (objAt s r).component.withParticipants
            (edgeDerivedParticipants s (objAt s r).nid)⟩ ∧
      (syncToJson s).2.nodes = s.nodes ∧ (syncToJson s).2.edges = s.edges ∧
      (syncToJson s).2.history = s.history ∧
      (syncToJson s).2.currentHistoryIndex = s.currentHistoryIndex) := by
  constructor
  · constructor
    · intro h
      cases hf : s.nodes.find? (fun x => (objAt s x).component.ctype == "team") with
      | none =>
        intro r hr
        have := List.find?_eq_none.mp hf r hr
        simpa [isTeamComponent] using this
      | some r =>
        exfalso
        have hp := List.find?_some hf
        unfold syncToJson at h
        rw [hf] at h
        unfold buildTeamComponent at h
        dsimp only at h
        rw [if_pos (by simpa [isTeamComponent] using hp)] at h
        simp at h
    · intro h
      have hf : s.nodes.find? (fun x => (objAt s x).component.ctype == "team") = none := by
        apply List.find?_eq_none.mpr
        intro r hr
        have := h r hr
        simpa [isTeamComponent] using this
      unfold syncToJson
      rw [hf]
  · intro r hf
    have hp := List.find?_some hf
    have hteam : isTeamComponent (objAt s r).component = true := by
      simpa [isTeamComponent] using hp
    unfold syncToJson buildTeamComponent
    rw [hf]
    dsimp only
    rw [if_pos hteam]
    exact ⟨rfl, rfl, rfl, rfl, rfl, rfl⟩

theorem c8_sync_spec_witness :
    (syncToJson sLoadTeam1).1 =
      some ((objAt sLoadTeam1 0).component.withParticipants
        (edgeDerivedParticipants sLoadTeam1 (objAt sLoadTeam1 0).nid)) ∧
    (syncToJson sLoadTeam1).2.heap =
      sLoadTeam1.heap.set 0 ⟨(objAt sLoadTeam1 0).nid, (objAt sLoadTeam1 0).ntype,
        (objAt sLoadTeam1 0).dlabel, (objAt sLoadTeam1 0).dtype,
        (objAt sLoadTeam1 0).component.withParticipants
          (edgeDerivedParticipants sLoadTeam1 (objAt sLoadTeam1 0).nid)⟩ ∧
    (syncToJson sLoadTeam1).2.nodes = sLoadTeam1.nodes ∧
    (syncToJson sLoadTeam1).2.edges = sLoadTeam1.edges ∧
    (syncToJson sLoadTeam1).2.history = sLoadTeam1.history ∧
    (syncToJson sLoadTeam1).2.currentHistoryIndex = sLoadTeam1.currentHistoryIndex :=
  (c8_sync_spec sLoadTeam1).2 0 rfl

theorem withParticipants_self (c : Component) : c.withParticipants c.participants = c := by
  cases c
  rfl

theorem convParts_nodes_length (t : Ident) (ps : List Component) (n : Nat) :
    (convParts t ps n).1.length = ps.length := by
  induction ps generalizing n with
  | nil => rfl
  | cons q rest ih => simp [convParts, ih]

theorem convParts_edges_length (t : Ident) (ps : List Component) (n : Nat) :
    (convParts t ps n).2.1.length = ps.length := by
  induction ps generalizing n with
  | nil => rfl
  | cons q rest ih => simp [convParts, ih]

theorem convParts_node_get? (t : Ident) (ps : List Component) :
    ∀ (n j : Nat) (p : Component), ps[j]? = some p →
    (convParts t ps n).1[j]? =
      some ⟨n + 2 * j, p.ctype, strOr p.clabel (strOr p.cname ""), p.ctype, p⟩ := by
  induction ps with
  | nil => intro n j p h; simp at h
  | cons q rest ih =>
    intro n j p h
    cases j with
    | zero =>
      simp at h
      subst h
      simp [convParts]
    | succ j2 =>
      simp at h
      rw [(by omega : n + 2 * (j2 + 1) = (n + 2) + 2 * j2)]
      simpa [convParts] using ih (n + 2) j2 p h

theorem convParts_edge_get? (t : Ident) (ps : List Component) :
    ∀ (n j : Nat) (p : Component), ps[j]? = some p →
    (convParts t ps n).2.1[j]? =
      some ⟨n + 2 * j + 1, t, n + 2 * j, "agent-connection"⟩ := by
  induction ps with
  | nil => intro n j p h; simp at h
  | cons q rest ih =>
    intro n j p h
    cases j with
    | zero =>
      simp [convParts]
    | succ j2 =>
      simp at h
      rw [(by omega : n + 2 * (j2 + 1) = (n + 2) + 2 * j2)]
      simpa [convParts] using ih (n + 2) j2 p h

theorem convParts_edge_mem (t : Ident) (ps : List Component) :
    ∀ (n : Nat), ∀ e ∈ (convParts t ps n).2.1,
      e.source = t ∧ e.etype = "agent-connection" := by
  induction ps with
  | nil => intro n e he; simp [convParts] at he
  | cons q rest ih =>
    intro n e he
    simp [convParts] at he
    rcases he with rfl | he
    · exact ⟨rfl, rfl⟩
    · exact ih (n + 2) e he

theorem find?_eq_some_of_getElem? {α} (l : List α) (p : α → Bool) (j : Nat) (a : α)
    (hj : l[j]? = some a) (hpa : p a = true)
    (hlt : ∀ i, i < j → ∀ b, l[i]? = some b → p b = false) :
    l.find? p = some a := by
  induction l generalizing j with
  | nil => simp at hj
  | cons x xs ih =>
    cases j with
    | zero =>
      simp at hj
      subst hj
      simp [List.find?_cons, hpa]
    | succ j2 =>
      have hx : p x = false := hlt 0 (Nat.succ_pos _) x (by simp)
      simp at hj
      rw [List.find?_cons, hx]
      exact ih j2 hj (fun i hi b hb => hlt (i + 1) (by omega) b (by simpa using hb))

theorem filterMap_eq_of_pointwise {α β} (f : α → Option β) :
    ∀ (l : List α) (l2 : List β), l2.length = l.length →
    (∀ (j : Nat) (a : α) (b : β), l[j]? = some a → l2[j]? = some b → f a = some b) →
    l.filterMap f = l2 := by
  intro l
  induction l with
  | nil =>
    intro l2 hlen _
    simp at hlen
    simp [hlen]
  | cons a as ih =>
    intro l2 hlen h
    cases l2 with
    | nil => simp at hlen
    | cons b bs =>
      have hfa : f a = some b := h 0 a b (by simp) (by simp)
      simp at hlen
      rw [List.filterMap_cons, hfa]
      rw [ih bs hlen (fun j x y hx hy => h (j + 1) x y (by simpa using hx) (by simpa using hy))]

theorem getD_of_getElem?_some {α} {l : List α} {n : Nat} {a : α}
    (h : l[n]? = some a) (d : α) : l.getD n d = a := by
  rw [List.getD_eq_getD_get?, List.get?_eq_getElem?, h]
  rfl

theorem getElem?_some_of_lt {α} (l : List α) (i : Nat) (h : i < l.length) :
    ∃ a, l[i]? = some a := by
  induction l generalizing i with
  | nil => simp at h
  | cons x xs ih =>
    cases i with
    | zero => exact ⟨x, by simp⟩
    | succ i2 =>
      obtain ⟨a, ha⟩ := ih i2 (by simpa using h)
      exact ⟨a, by simpa using ha⟩

theorem lt_of_getElem?_some {α} {l : List α} {i : Nat} {a : α}
    (h : l[i]? = some a) : i < l.length := by
  induction l generalizing i with
  | nil => simp at h
  | cons x xs ih =>
    cases i with
    | zero => simp
    | succ i2 =>
      simp at h
      have := ih h
      simp
      omega

theorem mem_of_getElem?_some {α} {l : List α} {i : Nat} {a : α}
    (h : l[i]? = some a) : a ∈ l := by
  induction l generalizing i with
  | nil => simp at h
  | cons x xs ih =>
    cases i with
    | zero =>
      simp at h
      simp [h]
    | succ i2 =>
      simp at h
      exact List.mem_cons_of_mem x (ih h)

/-- C2: an initial `loadFromJson` of a team configuration whose participants
are all agent components, followed by `syncToJson`, returns exactly the
original team component: the edge-derived participants recomputed by
`buildTeamComponent` are, in order, the participants the graph was built
from, and every other config field is preserved. -/
theorem c2_load_sync_roundtrip (s : Store) (config : Component) (tid : Option String)
    (hteam : isTeamComponent config = true)
    (hags : ∀ p ∈ config.participants, isAgentComponent p = true) :
    (syncToJson (loadFromJson s config true tid)).1 = some config := by
  set n0 := s.nextId with hn0
  set L := s.heap.length with hL
  set ps := config.participants with hps
  set tail := (convParts n0 ps (n0 + 1)).1 with htail
  set es := (convParts n0 ps (n0 + 1)).2.1 with hes0
  set teamObj : NodeObj :=
    ⟨n0, config.ctype, strOr config.clabel "Team", config.ctype, config⟩ with hteamObj
  set s1 := loadFromJson s config true tid with hs1def
  have hheap : s1.heap = s.heap ++ (teamObj :: tail) := rfl
  have hnodes : s1.nodes = (List.range (tail.length + 1)).map (fun i => L + i) := rfl
  have hedges : s1.edges = es := rfl
  have hlen_tail : tail.length = ps.length := convParts_nodes_length n0 ps (n0 + 1)
  have hlen_es : es.length = ps.length := convParts_edges_length n0 ps (n0 + 1)
  have hAt : ∀ (i : Nat) (o : NodeObj), (teamObj :: tail)[i]? = some o →
      objAt s1 (L + i) = o := by
    intro i o hio
    show (s1.heap).getD (L + i) default = o
    rw [hheap, List.getD_append_right _ _ _ _ (by omega)]
    have e1 : L + i - s.heap.length = i := by omega
    rw [e1]
    exact getD_of_getElem?_some hio _
  have hatL : objAt s1 L = teamObj := by
    have h0 := hAt 0 teamObj (by simp)
    simpa using h0
  have hatAg : ∀ (j : Nat) (p : Component), ps[j]? = some p →
      objAt s1 (L + (1 + j)) =
        ⟨n0 + 1 + 2 * j, p.ctype, strOr p.clabel (strOr p.cname ""), p.ctype, p⟩ := by
    intro j p hj
    apply hAt (1 + j)
    have h2 := convParts_node_get? n0 ps (n0 + 1) j p hj
    rw [(by omega : 1 + j = j + 1)]
    simpa using h2
  have hrefs : ∀ i : Nat, i < tail.length + 1 → s1.nodes[i]? = some (L + i) := by
    intro i hi
    rw [hnodes]
    simp [hi]
  have hfind_team :
      s1.nodes.find? (fun x => (objAt s1 x).component.ctype == "team") = some L := by
    apply find?_eq_some_of_getElem? _ _ 0 L
    · simpa using hrefs 0 (by omega)
    · rw [hatL]
      exact hteam
    · intro i hi b _
      exact absurd hi (Nat.not_lt_zero i)
  have hfindAg : ∀ (j : Nat) (p : Component), ps[j]? = some p →
      findNodeRef s1 (n0 + 1 + 2 * j) = some (L + (1 + j)) := by
    intro j p hj
    have hjk : j < ps.length := lt_of_getElem?_some hj
    apply find?_eq_some_of_getElem? _ _ (1 + j)
    · exact hrefs (1 + j) (by omega)
    · rw [hatAg j p hj]
      simp
    · intro i hi b hb
      have hbi : b = L + i := by
        have hri := hrefs i (by omega)
        rw [hri] at hb
        exact (Option.some.injEq _ _ ▸ hb.symm)
      subst hbi
      cases i with
      | zero =>
        have e0 : L + 0 = L := by omega
        rw [e0, hatL]
        simp only [beq_eq_false_iff_ne, ne_eq]
        show ¬ n0 = n0 + 1 + 2 * j
        omega
      | succ i2 =>
        obtain ⟨pi, hpi⟩ := getElem?_some_of_lt ps i2 (by omega)
        rw [(by omega : i2 + 1 = 1 + i2), hatAg i2 pi hpi]
        simp only [beq_eq_false_iff_ne, ne_eq]
        show ¬ n0 + 1 + 2 * i2 = n0 + 1 + 2 * j
        omega
  have hfilter : es.filter (fun e => e.source == n0 && e.etype == "agent-connection") = es := by
    rw [List.filter_eq_self]
    intro e he
    obtain ⟨h1, h2⟩ := convParts_edge_mem n0 ps (n0 + 1) e he
    simp [h1, h2]
  have hmap : es.filterMap (fun e =>
      match findNodeRef s1 e.target with
      | none => none
      | some r =>
        if isAgentComponent (objAt s1 r).component then some (objAt s1 r).component
        else none) = ps := by
    apply filterMap_eq_of_pointwise _ es ps hlen_es.symm
    intro j e p hje hjp
    have he := convParts_edge_get? n0 ps (n0 + 1) j p hjp
    rw [he] at hje
    have he2 : e = ⟨n0 + 1 + 2 * j + 1, n0, n0 + 1 + 2 * j, "agent-connection"⟩ := by
      have := hje.symm
      simpa using this
    subst he2
    show (match findNodeRef s1 (n0 + 1 + 2 * j) with
      | none => none
      | some r =>
        if isAgentComponent (objAt s1 r).component then some (objAt s1 r).component
        else none) = some p
    rw [hfindAg j p hjp]
    show (if isAgentComponent (objAt s1 (L + (1 + j))).component then
        some (objAt s1 (L + (1 + j))).component
      else none) = some p
    rw [hatAg j p hjp]
    have hagp : isAgentComponent p = true := hags p (mem_of_getElem?_some hjp)
    simp [hagp]
  show (syncToJson s1).1 = some config
  unfold syncToJson
  rw [hfind_team]
  show (buildTeamComponent s1 L).1 = some config
  unfold buildTeamComponent
  dsimp only
  rw [hatL]
  rw [if_pos hteam]
  show some (config.withParticipants (edgeDerivedParticipants s1 n0)) = some config
  unfold edgeDerivedParticipants
  rw [hedges, hfilter, hmap, withParticipants_self]

theorem c2_load_sync_roundtrip_witness :
    (syncToJson (loadFromJson initialStore exTeam true none)).1 = some exTeam :=
  c2_load_sync_roundtrip initialStore exTeam none rfl (by decide)

theorem le_maxStrLen {s : String} {l : List String} (h : s ∈ l) :
    s.length ≤ maxStrLen l := by
  induction l with
  | nil => simp at h
  | cons x xs ih =>
    rcases List.mem_cons.mp h with rfl | h2
    · exact Nat.le_max_left _ _
    · exact Nat.le_trans (ih h2) (Nat.le_max_right _ _)

theorem getUniqueName_not_mem (b : String) (l : List String) :
    getUniqueName b l ∉ l := by
  unfold getUniqueName
  split
  · intro hmem
    have h1 := le_maxStrLen hmem
    have h2 : (b ++ String.mk (List.replicate (maxStrLen l + 1) '_')).length =
        b.length + (maxStrLen l + 1) := by
      simp [String.length_append]
    omega
  · intro hmem
    exact absurd hmem (by assumption)

theorem getUniqueName_of_not_mem (b : String) (l : List String) (h : b ∉ l) :
    getUniqueName b l = b := by
  unfold getUniqueName
  rw [if_neg h]

theorem findIdxFrom_none_all {p : Component → Bool} :
    ∀ (l : List Component), findIdxFrom p l = none → ∀ a ∈ l, p a = false := by
  intro l
  induction l with
  | nil => intro _ a ha; simp at ha
  | cons x xs ih =>
    intro h a ha
    unfold findIdxFrom at h
    by_cases hp : p x = true
    · rw [if_pos hp] at h
      simp at h
    · rw [if_neg hp] at h
      rcases List.mem_cons.mp ha with rfl | h2
      · simpa using hp
      · exact ih (by simpa using h) a h2

theorem findIdxFrom_some_spec {p : Component → Bool} :
    ∀ (l : List Component) (i : Nat), findIdxFrom p l = some i →
      ∃ a, l[i]? = some a ∧ p a = true := by
  intro l
  induction l with
  | nil => intro i h; simp [findIdxFrom] at h
  | cons x xs ih =>
    intro i h
    unfold findIdxFrom at h
    by_cases hp : p x = true
    · rw [if_pos hp] at h
      simp at h
      subst h
      exact ⟨x, by simp, hp⟩
    · rw [if_neg hp] at h
      simp at h
      obtain ⟨i2, h2, rfl⟩ := h
      obtain ⟨a, ha, hpa⟩ := ih i2 h2
      exact ⟨a, by simpa using ha, hpa⟩

theorem getD_set_self {α} : ∀ (l : List α) (i : Nat) (v d : α), i < l.length →
    (l.set i v).getD i d = v := by
  intro l
  induction l with
  | nil => intro i v d h; simp at h
  | cons x xs ih =>
    intro i v d h
    cases i with
    | zero => rfl
    | succ i2 => exact ih i2 v d (by simpa using h)

theorem withWorkbench_self (c : Component) : c.withWorkbench c.workbench = c := by
  cases c
  rfl

theorem withWorkbench_withWorkbench (c : Component) (w w2 : Wb) :
    (c.withWorkbench w).withWorkbench w2 = c.withWorkbench w2 := by
  cases c
  rfl

theorem toolDropSpec_holds (w : Wb) (tool : Component) : ToolDropSpec w tool := by
  cases w with
  | undef =>
    unfold ToolDropSpec
    exact ⟨by intro wb hwb; simp [normalizeWorkbenches] at hwb, rfl⟩
  | single c =>
    by_cases hp : isStaticWorkbench c = true
    · unfold ToolDropSpec
      dsimp only [normalizeWorkbenches]
      rw [show findIdxFrom (fun wb => isStaticWorkbench wb) [c] = some 0 by
        simp [findIdxFrom, hp]]
      refine ⟨c, by simp, hp, ?_, getUniqueName_not_mem _ _⟩
      simp [toolDropWb, normalizeWorkbenches, findIdxFrom, hp, addToolTo]
    · unfold ToolDropSpec
      dsimp only [normalizeWorkbenches]
      rw [show findIdxFrom (fun wb => isStaticWorkbench wb) [c] = none by
        simp [findIdxFrom, hp]]
      refine ⟨?_, ?_⟩
      · intro wb hwb
        rcases List.mem_singleton.mp hwb with rfl
        simpa using hp
      · simp [toolDropWb, normalizeWorkbenches, findIdxFrom, hp, addToolTo,
          newStaticWorkbench]
        rfl
  | arr l =>
    cases hf : findIdxFrom (fun wb => isStaticWorkbench wb) l with
    | none =>
      unfold ToolDropSpec
      dsimp only [normalizeWorkbenches]
      rw [hf]
      refine ⟨findIdxFrom_none_all l hf, ?_⟩
      simp [toolDropWb, normalizeWorkbenches, hf, addToolTo, newStaticWorkbench]
      rfl
    | some i =>
      unfold ToolDropSpec
      dsimp only [normalizeWorkbenches]
      rw [hf]
      obtain ⟨wb, hwb, hpwb⟩ := findIdxFrom_some_spec l i hf
      refine ⟨wb, hwb, hpwb, ?_, getUniqueName_not_mem _ _⟩
      have hgd : l.getD i default = wb := getD_of_getElem?_some hwb _
      simp [toolDropWb, normalizeWorkbenches, hf, addToolTo, hgd]
      rw [hwb]
      rfl

/-- C9: dropping a tool component onto an existing assistant-agent node
mutates only that node's workbench field: the tool, first renamed so that
its display name is unique among the tool names already in the (first)
static workbench, is appended to that workbench's tools — a fresh empty
`StaticWorkbench` (and the workbench array itself) being created when none
exists — and no graph nodes or edges are added or removed. -/
theorem c9_tool_drop (s : Store) (tool : Component) (tid r : Ident)
    (hfind : findNodeRef s tid = some r) (hr : r < s.heap.length)
    (hassist : isAssistantAgent (objAt s r).component = true)
    (htool : isToolComponent tool = true) :
    (addNode s tool (some tid)).nodes = s.nodes ∧
    (addNode s tool (some tid)).edges = s.edges ∧
    (objAt (addNode s tool (some tid)) r).component =
      (objAt s r).component.withWorkbench
        (toolDropWb (objAt s r).component.workbench tool) ∧
    ToolDropSpec (objAt s r).component.workbench tool ∧
    (objAt (addNode s tool (some tid)) r).component.withWorkbench
      (objAt s r).component.workbench = (objAt s r).component := by
  have hct : tool.ctype = "tool" := by simpa [isToolComponent] using htool
  have hmodel : isModelComponent tool = false := by simp [isModelComponent, hct]
  have hagent : isAgentComponent (objAt s r).component = true := by
    have hA := hassist
    rw [isAssistantAgent, Bool.and_eq_true] at hA
    exact hA.1
  have hstep : addNode s tool (some tid) =
      record { s with
                heap := s.heap.set r
                  ⟨(objAt s r).nid, (objAt s r).ntype, (objAt s r).dlabel,
                    (objAt s r).dtype,
                    (objAt s r).component.withWorkbench
                      (toolDropWb (objAt s r).component.workbench tool)⟩ } := by
    simp only [addNode]
    rw [hfind]
    simp [hmodel, htool, hagent, hassist]
  refine ⟨?_, ?_, ?_, toolDropSpec_holds _ _, ?_⟩
  · rw [hstep]
    rfl
  · rw [hstep]
    rfl
  · rw [hstep]
    show ((s.heap.set r _).getD r default).component = _
    rw [getD_set_self _ _ _ _ hr]
  · rw [hstep]
    show ((s.heap.set r _).getD r default).component.withWorkbench _ = _
    rw [getD_set_self _ _ _ _ hr]
    rw [withWorkbench_withWorkbench, withWorkbench_self]

theorem c9_tool_drop_witness :
    (addNode sLoadTeam1 exTool (some 1)).nodes = sLoadTeam1.nodes ∧
    (addNode sLoadTeam1 exTool (some 1)).edges = sLoadTeam1.edges ∧
    (objAt (addNode sLoadTeam1 exTool (some 1)) 1).component =
      (objAt sLoadTeam1 1).component.withWorkbench
        (toolDropWb (objAt sLoadTeam1 1).component.workbench exTool) ∧
    ToolDropSpec (objAt sLoadTeam1 1).component.workbench exTool ∧
    (objAt (addNode sLoadTeam1 exTool (some 1)) 1).component.withWorkbench
      (objAt sLoadTeam1 1).component.workbench = (objAt sLoadTeam1 1).component :=
  c9_tool_drop sLoadTeam1 exTool 1 1 rfl (by decide) rfl rfl

theorem agent_not_team {c : Component} (h : isAgentComponent c = true) :
    isTeamComponent c = false := by
  have hc : c.ctype = "agent" := by simpa [isAgentComponent] using h
  simp [isTeamComponent, hc]

theorem bool_eq_of_iff {a b : Bool} (h : a = true ↔ b = true) : a = b := by
  cases a <;> cases b <;> simp_all

theorem mapSet_mem {m : List (Ident × NodeObj)} {k : Ident} {v : NodeObj} :
    ∀ kv ∈ mapSet m k v, kv ∈ m ∨ kv = (k, v) := by
  intro kv hkv
  unfold mapSet at hkv
  split at hkv
  · obtain ⟨kv0, hkv0, heq⟩ := List.mem_map.mp hkv
    by_cases h : (kv0.1 == k) = true
    · rw [if_pos h] at heq
      exact Or.inr heq.symm
    · rw [if_neg h] at heq
      exact Or.inl (heq ▸ hkv0)
  · rcases List.mem_append.mp hkv with h | h
    · exact Or.inl h
    · exact Or.inr (List.mem_singleton.mp h)

theorem collect_updInv (s : Store) : ∀ fuel : Nat,
    (∀ (id : Ident) (acc : List Ident × List (Ident × NodeObj)),
      (∀ kv ∈ acc.2, kv.2.nid = kv.1) →
      ∀ kv ∈ (collectRemove s fuel id acc).2, kv.2.nid = kv.1) ∧
    (∀ (ts : List Ident) (acc : List Ident × List (Ident × NodeObj)),
      (∀ kv ∈ acc.2, kv.2.nid = kv.1) →
      ∀ kv ∈ (collectRemoveMany s fuel ts acc).2, kv.2.nid = kv.1) := by
  intro fuel
  induction fuel with
  | zero =>
    constructor
    · intro id acc hInv
      simpa [collectRemove] using hInv
    · intro ts
      induction ts with
      | nil => intro acc hInv; simpa [collectRemoveMany] using hInv
      | cons t ts2 ih =>
        intro acc hInv
        have h1 : collectRemove s 0 t acc = acc := by simp [collectRemove]
        have h2 : collectRemoveMany s 0 (t :: ts2) acc =
            collectRemoveMany s 0 ts2 acc := by
          rw [collectRemoveMany, h1]
        rw [h2]
        exact ih acc hInv
  | succ f ihf =>
    have hcol : ∀ (id : Ident) (acc : List Ident × List (Ident × NodeObj)),
        (∀ kv ∈ acc.2, kv.2.nid = kv.1) →
        ∀ kv ∈ (collectRemove s (f + 1) id acc).2, kv.2.nid = kv.1 := by
      intro id acc hInv
      unfold collectRemove
      dsimp only
      repeat' split
      all_goals first
        | exact hInv
        | exact ihf.2 _ _ hInv
        | (intro kv hkv
           rcases mapSet_mem kv hkv with h | h
           · exact hInv kv h
           · rw [h])
    refine ⟨hcol, ?_⟩
    intro ts
    induction ts with
    | nil => intro acc hInv; simpa [collectRemoveMany] using hInv
    | cons t ts2 ih =>
      intro acc hInv
      rw [collectRemoveMany]
      exact ih _ (hcol t acc hInv)

theorem rebuild_heap_ext (s : Store) (upd : List (Ident × NodeObj)) :
    ∀ (xs : List Ident) (heapAcc : List NodeObj),
      ∃ ext, (rebuildNodes s upd xs heapAcc).1 = heapAcc ++ ext := by
  intro xs
  induction xs with
  | nil => intro heapAcc; exact ⟨[], by simp [rebuildNodes]⟩
  | cons x xs2 ih =>
    intro heapAcc
    unfold rebuildNodes
    cases hg : mapGet upd (objAt s x).nid with
    | some v =>
      dsimp only
      obtain ⟨ext, hext⟩ := ih (heapAcc ++ [v])
      exact ⟨[v] ++ ext, by rw [hext, List.append_assoc]⟩
    | none =>
      dsimp only
      exact ih heapAcc

theorem rebuild_ids (s : Store) (upd : List (Ident × NodeObj))
    (hUpd : ∀ kv ∈ upd, kv.2.nid = kv.1) :
    ∀ (xs : List Ident) (heapAcc : List NodeObj),
      (∀ x ∈ xs, x < s.heap.length) →
      (∃ pre, heapAcc = s.heap ++ pre) →
      (rebuildNodes s upd xs heapAcc).2.map
        (fun rr => ((rebuildNodes s upd xs heapAcc).1.getD rr default).nid) =
      xs.map (fun x => (objAt s x).nid) := by
  intro xs
  induction xs with
  | nil => intro heapAcc _ _; simp [rebuildNodes]
  | cons x xs2 ih =>
    intro heapAcc hlt hpre
    obtain ⟨pre, rfl⟩ := hpre
    unfold rebuildNodes
    cases hg : mapGet upd (objAt s x).nid with
    | some v =>
      dsimp only
      obtain ⟨ext, hext⟩ := rebuild_heap_ext s upd xs2 ((s.heap ++ pre) ++ [v])
      have hhead :
          ((rebuildNodes s upd xs2 ((s.heap ++ pre) ++ [v])).1.getD
            (s.heap ++ pre).length default) = v := by
        rw [hext, List.getD_append _ _ _ _ (by simp), List.getD_append_right _ _ _ _ (by simp)]
        simp
      have hnidv : v.nid = (objAt s x).nid := by
        unfold mapGet at hg
        cases hf : upd.find? (fun kv => kv.1 == (objAt s x).nid) with
        | none => rw [hf] at hg; simp at hg
        | some kv0 =>
          rw [hf] at hg
          simp at hg
          have hmem := List.mem_of_find?_eq_some hf
          have hpred := List.find?_some hf
          have h1 : kv0.1 = (objAt s x).nid := by simpa using hpred
          rw [← hg, hUpd kv0 hmem, h1]
      simp only [List.map_cons]
      rw [hhead, hnidv]
      have htail := ih ((s.heap ++ pre) ++ [v]) (fun y hy => hlt y (List.mem_cons_of_mem _ hy))
        ⟨pre ++ [v], by rw [List.append_assoc]⟩
      rw [htail]
    | none =>
      dsimp only
      obtain ⟨ext, hext⟩ := rebuild_heap_ext s upd xs2 (s.heap ++ pre)
      have hx : x < s.heap.length := hlt x (List.mem_cons_self _ _)
      have hhead :
          ((rebuildNodes s upd xs2 (s.heap ++ pre)).1.getD x default) = objAt s x := by
        have hx2 : x < (s.heap ++ pre).length := by
          rw [List.length_append]
          exact Nat.lt_of_lt_of_le hx (Nat.le_add_right _ _)
        rw [hext, List.getD_append _ _ _ _ hx2, List.getD_append _ _ _ _ hx]
        rfl
      simp only [List.map_cons]
      rw [hhead]
      have htail := ih (s.heap ++ pre) (fun y hy => hlt y (List.mem_cons_of_mem _ hy))
        ⟨pre, rfl⟩
      rw [htail]

theorem collectMany_fst (s : Store) (f2 : Nat) :
    ∀ (ts : List Ident) (acc : List Ident × List (Ident × NodeObj)),
    (∀ x ∈ ts, ∀ r2, findNodeRef s x = some r2 →
      isAgentComponent (objAt s r2).component = true) →
    (collectRemoveMany s (f2 + 1) ts acc).1 =
      acc.1 ++ ts.filter (fun x => (findNodeRef s x).isSome) := by
  intro ts
  induction ts with
  | nil => intro acc _; simp [collectRemoveMany]
  | cons t ts2 ih =>
    intro acc hOK
    rw [collectRemoveMany]
    cases hft : findNodeRef s t with
    | none =>
      have h1 : collectRemove s (f2 + 1) t acc = acc := by
        rw [collectRemove, hft]
      rw [h1, ih acc (fun x hx => hOK x (List.mem_cons_of_mem _ hx))]
      rw [List.filter_cons]
      simp [hft]
    | some r2 =>
      have hAg := hOK t (List.mem_cons_self _ _) r2 hft
      have hnt := agent_not_team hAg
      have hfst : (collectRemove s (f2 + 1) t acc).1 = acc.1 ++ [t] := by
        rw [collectRemove, hft]
        dsimp only
        simp only [hnt, hAg, Bool.false_eq_true, if_false, if_true]
        repeat' split
        all_goals rfl
      rw [ih (collectRemove s (f2 + 1) t acc) (fun x hx => hOK x (List.mem_cons_of_mem _ hx))]
      rw [hfst, List.filter_cons]
      simp [hft, List.append_assoc]

/-- C4: on a well-formed graph (agent-connection edges target agent nodes,
and heap references are valid), removing a team node removes exactly the
team itself and the existing nodes targeted by its outgoing agent-connection
edges, and exactly the edges incident to a removed node; all other nodes
remain present. -/
theorem c4_removeNode_cascade (s : Store) (tid r : Ident)
    (hfind : findNodeRef s tid = some r)
    (hteam : isTeamComponent (objAt s r).component = true)
    (hrefs : ∀ x ∈ s.nodes, x < s.heap.length)
    (htargets : ∀ e ∈ s.edges, e.etype = "agent-connection" →
       ∀ r2, findNodeRef s e.target = some r2 →
         isAgentComponent (objAt s r2).component = true) :
    viewNodeIds (removeNode s tid) =
      (viewNodeIds s).filter (fun x => !(removedByCascade s tid x)) ∧
    (removeNode s tid).edges =
      s.edges.filter (fun e =>
        !(removedByCascade s tid e.source) && !(removedByCascade s tid e.target)) := by
  have hne : s.nodes.length ≠ 0 := by
    intro h0
    rw [findNodeRef, List.length_eq_zero.mp h0] at hfind
    simp at hfind
  have hnotid : ∀ e ∈ s.edges, (e.etype == "agent-connection") = true → e.target ≠ tid := by
    intro e he het habs
    have h1 : e.etype = "agent-connection" := by simpa using het
    have h2 := htargets e he h1 r (by rw [habs]; exact hfind)
    rw [agent_not_team h2] at hteam
    simp at hteam
  have hfe : (s.edges.filter (fun e => e.source == tid || e.target == tid)).filter
        (fun e => e.etype == "agent-connection") =
      s.edges.filter (fun e => e.etype == "agent-connection" && e.source == tid) := by
    rw [List.filter_filter]
    apply List.filter_congr
    intro e he
    by_cases h1 : (e.etype == "agent-connection") = true
    · have h2 : (e.target == tid) = false := beq_eq_false_iff_ne.mpr (hnotid e he h1)
      cases hsrc : (e.source == tid) <;> simp [h1, h2, hsrc]
    · have h1f : (e.etype == "agent-connection") = false := by
        cases hc : (e.etype == "agent-connection")
        · rfl
        · exact absurd hc h1
      simp [h1f]
  obtain ⟨f2, hf2⟩ : ∃ f2, s.nodes.length = f2 + 1 :=
    ⟨s.nodes.length - 1, by omega⟩
  have hOKmap : ∀ x ∈ (s.edges.filter
        (fun e => e.etype == "agent-connection" && e.source == tid)).map
        (fun e => e.target),
      ∀ r2, findNodeRef s x = some r2 →
        isAgentComponent (objAt s r2).component = true := by
    intro x hx r2 hfr2
    obtain ⟨e, he2, rfl⟩ := List.mem_map.mp hx
    obtain ⟨he, hpe⟩ := List.mem_filter.mp he2
    have h1 : e.etype = "agent-connection" := by
      have := (Bool.and_eq_true _ _).mp hpe
      simpa using this.1
    exact htargets e he h1 r2 hfr2
  have hrem : (collectRemove s (s.nodes.length + 1) tid ([], [])).1 =
      tid :: ((s.edges.filter
        (fun e => e.etype == "agent-connection" && e.source == tid)).map
        (fun e => e.target)).filter (fun x => (findNodeRef s x).isSome) := by
    rw [collectRemove, hfind]
    dsimp only
    simp only [hteam, if_true]
    rw [hfe, hf2]
    rw [collectMany_fst s f2 _ _ hOKmap]
    simp
  have hmemb : ∀ x, ((collectRemove s (s.nodes.length + 1) tid ([], [])).1.contains x) =
      removedByCascade s tid x := by
    intro x
    apply bool_eq_of_iff
    rw [hrem]
    unfold removedByCascade
    constructor
    · intro h
      rw [List.contains_eq_any_beq, List.any_eq_true] at h
      obtain ⟨y, hy, hxy⟩ := h
      obtain rfl : x = y := by simpa using hxy
      rcases List.mem_cons.mp hy with h | h
      · simp [h]
      · obtain ⟨hx_map, hx_s⟩ := List.mem_filter.mp h
        obtain ⟨e, he_f, he_t⟩ := List.mem_map.mp hx_map
        obtain ⟨he, hpe⟩ := List.mem_filter.mp he_f
        rw [Bool.or_eq_true]
        right
        apply List.any_eq_true.mpr
        refine ⟨e, he, ?_⟩
        rw [Bool.and_eq_true] at hpe
        obtain ⟨hp1, hp2⟩ := hpe
        simp [hp1, hp2, he_t, hx_s]
    · intro h
      rw [Bool.or_eq_true] at h
      rcases h with h | h
      · obtain rfl : x = tid := by simpa using h
        simp [List.contains_eq_any_beq]
      · obtain ⟨e, he, hpe⟩ := List.any_eq_true.mp h
        rw [Bool.and_eq_true, Bool.and_eq_true, Bool.and_eq_true] at hpe
        obtain ⟨⟨⟨h1, h2⟩, h3⟩, h4⟩ := hpe
        have h3e : e.target = x := by simpa using h3
        rw [List.contains_eq_any_beq, List.any_eq_true]
        refine ⟨x, ?_, by simp⟩
        apply List.mem_cons_of_mem
        apply List.mem_filter.mpr
        constructor
        · exact List.mem_map.mpr ⟨e, List.mem_filter.mpr ⟨he, by simp [h1, h2]⟩, h3e⟩
        · rw [← h3e]
          exact h4
  set colA := collectRemove s (s.nodes.length + 1) tid ([], []) with hcolA
  set keptA := s.nodes.filter (fun x => !(colA.1.contains (objAt s x).nid)) with hkeptA
  set rbA := rebuildNodes s colA.2 keptA s.heap with hrbA
  have hUpd : ∀ kv ∈ colA.2, kv.2.nid = kv.1 :=
    (collect_updInv s (s.nodes.length + 1)).1 tid ([], [])
      (by intro kv hkv; simp at hkv)
  have hkept_lt : ∀ x ∈ keptA, x < s.heap.length := by
    intro x hx
    rw [hkeptA] at hx
    exact hrefs x (List.mem_filter.mp hx).1
  have hids := rebuild_ids s colA.2 hUpd keptA s.heap hkept_lt ⟨[], by simp⟩
  have hrn : removeNode s tid = record { s with
      heap := rbA.1, nodes := rbA.2,
      edges := s.edges.filter (fun e =>
        !(colA.1.contains e.source) && !(colA.1.contains e.target)) } := rfl
  constructor
  · rw [hrn]
    show rbA.2.map (fun rr => ((rbA.1).getD rr default).nid) =
      (viewNodeIds s).filter (fun x => !(removedByCascade s tid x))
    rw [hids]
    have hcomm : keptA.map (fun rr : Ident => (objAt s rr).nid) =
        (s.nodes.map (fun rr : Ident => (objAt s rr).nid)).filter
          (fun n => !(colA.1.contains n)) := by
      rw [List.filter_map, hkeptA]
      rfl
    rw [hcomm]
    apply List.filter_congr
    intro n _
    rw [hmemb n]
  · rw [hrn]
    show s.edges.filter (fun e =>
        !(colA.1.contains e.source) && !(colA.1.contains e.target)) =
      s.edges.filter (fun e =>
        !(removedByCascade s tid e.source) && !(removedByCascade s tid e.target))
    apply List.filter_congr
    intro e _
    rw [hmemb e.source, hmemb e.target]

theorem c4_removeNode_cascade_witness :
    viewNodeIds (removeNode sLoadTeam1 0) =
      (viewNodeIds sLoadTeam1).filter (fun x => !(removedByCascade sLoadTeam1 0 x)) ∧
    (removeNode sLoadTeam1 0).edges =
      sLoadTeam1.edges.filter (fun e =>
        !(removedByCascade sLoadTeam1 0 e.source) &&
        !(removedByCascade sLoadTeam1 0 e.target)) :=
  c4_removeNode_cascade sLoadTeam1 0 0 rfl rfl (by decide)
    (by
      intro e he het r2 hfr2
      have hedges : sLoadTeam1.edges = [⟨2, 0, 1, "agent-connection"⟩] := rfl
      rw [hedges] at he
      have he2 : e = ⟨2, 0, 1, "agent-connection"⟩ := by simpa using he
      subst he2
      have hf1 : findNodeRef sLoadTeam1 1 = some 1 := rfl
      rw [hf1] at hfr2
      obtain rfl : (1 : Ident) = r2 := Option.some.inj hfr2
      rfl)
